import Mathlib

/-!
Verification of a C++-like front end (lexer, parser, semantic analyzer).

The definitions below are a shallow embedding of the Python sources
`src/lexer.py`, `src/parser.py`, `src/ast.py`, `src/semantic.py` of the
repository: pure Lean functions mirroring the source text, with the
analyzer's append-only error list made an explicit emitted-errors result
and the parser's mutable position made explicit state passing.
-/

namespace CCFront

/-- Token from `lexer.py`: `Token(type, value, line, column)`. -/
structure Token where
  type : String
  value : String
  line : Nat
  column : Nat
deriving Repr, DecidableEq

/-- `Lexer.KEYWORDS` from `lexer.py`. -/
def KEYWORDS : List String :=
  ["int", "float", "char", "bool", "if", "else", "for", "while", "do",
   "return", "const", "true", "false", "void"]

/-- Identifier start: `[A-Za-z_]`. -/
def isIdStart (c : Char) : Bool := c.isAlpha || c = '_'

/-- Identifier continuation: `[A-Za-z0-9_]`. -/
def isIdCont (c : Char) : Bool := c.isAlpha || c.isDigit || c = '_'

/-- `// ...` rule `COMMENT r'//.*'`: `.` does not match a newline. -/
def matchCOMMENT : List Char → Option (List Char)
  | '/' :: '/' :: rest => some ('/' :: '/' :: rest.takeWhile (· ≠ '\n'))
  | _ => none

/-- Body of `MULTICOMMENT r'/\*[\s\S]*?\*/'` after `/*`: lazily match up to
and including the first `*/`; no closing `*/` means the rule fails. -/
def mcClose : List Char → Option (List Char)
  | '*' :: '/' :: _ => some ['*', '/']
  | c :: rest => (mcClose rest).map (c :: ·)
  | [] => none

/-- `MULTICOMMENT r'/\*[\s\S]*?\*/'`. -/
def matchMULTICOMMENT : List Char → Option (List Char)
  | '/' :: '*' :: rest => (mcClose rest).map (fun body => '/' :: '*' :: body)
  | _ => none

/-- `CHAR r"'(?:\\.|[^\\'])'"`: a quoted escaped character (the `.` of `\\.`
does not match a newline) or a single character other than `\` and `'`. -/
def matchCHAR : List Char → Option (List Char)
  | '\'' :: '\\' :: c :: '\'' :: _ =>
      if c ≠ '\n' then some ['\'', '\\', c, '\''] else none
  | '\'' :: c :: '\'' :: _ =>
      if c ≠ '\\' ∧ c ≠ '\'' then some ['\'', c, '\''] else none
  | _ => none

/-- `FLOAT r'\d+\.\d+'`. -/
def matchFLOAT (cs : List Char) : Option (List Char) :=
  let d1 := cs.takeWhile Char.isDigit
  if d1 = [] then none else
    match cs.dropWhile Char.isDigit with
    | '.' :: rest =>
        let d2 := rest.takeWhile Char.isDigit
        if d2 = [] then none else some (d1 ++ '.' :: d2)
    | _ => none

/-- `INT r'\d+'`. -/
def matchINT (cs : List Char) : Option (List Char) :=
  let d := cs.takeWhile Char.isDigit
  if d = [] then none else some d

/-- `ID r'[A-Za-z_][A-Za-z0-9_]*'`. -/
def matchID : List Char → Option (List Char)
  | c :: rest => if isIdStart c then some (c :: rest.takeWhile isIdCont) else none
  | [] => none

/-- The multi-character operators of the `OP` rule, in alternation order. -/
def OPS : List (List Char) :=
  [['=', '='], ['!', '='], ['<', '='], ['>', '='], ['|', '|'], ['&', '&'],
   ['+', '+'], ['-', '-'], ['+', '='], ['-', '='], ['*', '='], ['/', '='], ['%', '=']]

/-- First alternative of `alts` that is a prefix of the input. -/
def firstPrefix : List (List Char) → List Char → Option (List Char)
  | [], _ => none
  | op :: rest, cs => if op.isPrefixOf cs then some op else firstPrefix rest cs

/-- `OP`: first alternative that matches at the current position. -/
def matchOP (cs : List Char) : Option (List Char) :=
  firstPrefix OPS cs

/-- `SYMBOL r'[+\-*/%<>=!&|.,;:(){}\[\]]'`. -/
def SYMBOLS : List Char :=
  ['+', '-', '*', '/', '%', '<', '>', '=', '!', '&', '|', '.', ',', ';', ':',
   '(', ')', '\x7b', '\x7d', '[', ']']

def matchSYMBOL : List Char → Option (List Char)
  | c :: _ => if c ∈ SYMBOLS then some [c] else none
  | [] => none

/-- `SKIP r'[ \t]+'`. -/
def matchSKIP (cs : List Char) : Option (List Char) :=
  let s := cs.takeWhile (fun c => c = ' ' ∨ c = '\t')
  if s = [] then none else some s

/-- `NEWLINE r'\n'`. -/
def matchNEWLINE : List Char → Option (List Char)
  | '\n' :: _ => some ['\n']
  | _ => none

/-- One attempt of the compiled alternation at the current position:
alternatives are tried in `token_specification` order, the first that
matches wins; returns the group name and the matched lexeme. -/
def tryRules (cs : List Char) : Option (String × List Char) :=
  match matchCOMMENT cs with
  | some l => some ("COMMENT", l)
  | none =>
  match matchMULTICOMMENT cs with
  | some l => some ("MULTICOMMENT", l)
  | none =>
  match matchCHAR cs with
  | some l => some ("CHAR", l)
  | none =>
  match matchFLOAT cs with
  | some l => some ("FLOAT", l)
  | none =>
  match matchINT cs with
  | some l => some ("INT", l)
  | none =>
  match matchID cs with
  | some l => some ("ID", l)
  | none =>
  match matchOP cs with
  | some l => some ("OP", l)
  | none =>
  match matchSYMBOL cs with
  | some l => some ("SYMBOL", l)
  | none =>
  match matchSKIP cs with
  | some l => some ("SKIP", l)
  | none =>
  match matchNEWLINE cs with
  | some l => some ("NEWLINE", l)
  | none => none

/-- Kinds whose matches are discarded without producing a token. -/
def droppedKinds : List String := ["SKIP", "COMMENT", "MULTICOMMENT"]

/-- The `finditer` loop of `Lexer.tokenize`: `pos` is the absolute offset of
the current position, `lineNum` the current 1-based line, `lineStart` the
offset just after the last `NEWLINE` match.  A position where no rule
matches is skipped without producing a token (as `finditer` does).
Returns the emitted tokens and the final line number.  `fuel` only makes
the recursion structural: every step consumes at least one character, so
any `fuel > cs.length` computes the loop in full (`scan_fuel_irrelevant`)
and the zero-fuel branch is unreachable from `tokenize`. -/
def scan (fuel : Nat) (cs : List Char) (pos lineNum lineStart : Nat) :
    List Token × Nat :=
  match fuel with
  | 0 => ([], lineNum)
  | fuel + 1 =>
    match cs with
    | [] => ([], lineNum)
    | _ :: rest =>
      match tryRules cs with
      | some (kind, lex) =>
        let value : String := ⟨lex⟩
        let column := pos - lineStart + 1
        if kind = "NEWLINE" then
          scan fuel (cs.drop lex.length) (pos + lex.length) (lineNum + 1) (pos + lex.length)
        else if kind ∈ droppedKinds then
          scan fuel (cs.drop lex.length) (pos + lex.length) lineNum lineStart
        else
          let kind := if kind = "ID" ∧ value ∈ KEYWORDS then value else kind
          let r := scan fuel (cs.drop lex.length) (pos + lex.length) lineNum lineStart
          (⟨kind, value, lineNum, column⟩ :: r.1, r.2)
      | none => scan fuel rest (pos + 1) lineNum lineStart

/-- `Lexer.tokenize`: scan the whole input, then append the `EOF` token. -/
def tokenize (code : String) : List Token :=
  let r := scan (code.data.length + 1) code.data 0 1 0
  r.1 ++ [⟨"EOF", "", r.2, 1⟩]

/-- The group names `tryRules` can return. -/
def RULE_KINDS : List String :=
  ["COMMENT", "MULTICOMMENT", "CHAR", "FLOAT", "INT", "ID", "OP", "SYMBOL",
   "SKIP", "NEWLINE"]

/-! ## Syntax tree (`ast.py`) -/

/-- Literal payloads: `Literal.value` is `int(...)`, `float(...)`, the
unquoted character text, or a boolean.  A float keeps its source text,
which nothing in the front end ever reads back. -/
inductive LitVal where
  | intV (n : Int)
  | floatV (raw : String)
  | charV (s : String)
  | boolV (b : Bool)
deriving Repr, DecidableEq

/-- The node variants of `ast.py`.  `pyList` stands for a bare Python list
used as a tree child: `parse_typed_declaration` returns a list of
declarators and `parse_statement` passes it through, so statement
positions can hold such a list. -/
inductive Node where
  | funcDecl (retType name : String) (params : List (String × String)) (body : Node)
  | varDecl (varType name : String) (init : Option Node) (isConst : Bool)
  | compound (statements : List Node)
  | ifStmt (cond : Node) (thenBranch : Node) (elseBranch : Option Node)
  | whileStmt (cond : Node) (body : Node)
  | forStmt (init : Option Node) (cond : Option Node) (post : Option Node) (body : Node)
  | returnStmt (expr : Option Node)
  | exprStmt (expr : Node)
  | binaryOp (op : String) (left right : Node)
  | unaryOp (op : String) (expr : Node)
  | literal (value : LitVal) (typ : String)
  | varRef (name : String)
  | funcCall (name : String) (args : List Node)
  | pyList (items : List Node)
deriving Repr

/-- `ast.Program`. -/
structure Program where
  declarations : List Node
deriving Repr

/-! ## Parser (`parser.py`)

The token cursor `self.pos` is explicit state; `ParseError` (and the
`IndexError` a read past the token list would raise) is `Except.error`
carrying the message. -/

/-- Parser state: the token list of `Parser.__init__` plus `self.pos`. -/
structure PState where
  tokens : List Token
  pos : Nat
deriving Repr

/-- `Parser.peek`: `self.tokens[self.pos]`. -/
def peek (st : PState) : Except String Token :=
  match st.tokens.get? st.pos with
  | some t => .ok t
  | none => .error "IndexError: list index out of range"

/-- `Parser.next`: return the current token and advance. -/
def pnext (st : PState) : Except String (Token × PState) :=
  match st.tokens.get? st.pos with
  | some t => .ok (t, { st with pos := st.pos + 1 })
  | none => .error "IndexError: list index out of range"

/-- `Parser.expect`: note the `and` in the original condition — a token of
the requested type is accepted even when `value` is given and differs. -/
def expect (st : PState) (typ : String) (value : Option String) :
    Except String (Token × PState) := do
  let tok ← peek st
  if tok.type ≠ typ ∧ (value = none ∨ some tok.value ≠ value) then
    .error ("Expected " ++ typ ++ " " ++ value.getD "" ++ " got " ++ tok.type
      ++ " " ++ tok.value ++ " at " ++ toString tok.line ++ ":" ++ toString tok.column)
  else
    pnext st

/-- `Parser.PRECEDENCE`. -/
def PRECEDENCE : String → Option Nat
  | "||" => some 1
  | "&&" => some 2
  | "==" => some 3 | "!=" => some 3
  | "<" => some 4 | ">" => some 4 | "<=" => some 4 | ">=" => some 4
  | "+" => some 5 | "-" => some 5
  | "*" => some 6 | "/" => some 6 | "%" => some 6
  | "=" => some 0
  | "+=" => some 0 | "-=" => some 0 | "*=" => some 0 | "/=" => some 0 | "%=" => some 0
  | _ => none

/-- The assignment operators (right-associative, and the ones whose
left-hand side is checked for const-ness by the analyzer). -/
def ASSIGN_OPS : List String := ["=", "+=", "-=", "*=", "/=", "%="]

/-- Value of a digit string (what `int(tok.value)` yields on the
digits-only lexemes the lexer produces). -/
def digitsVal : List Char → Nat → Nat
  | [], acc => acc
  | c :: r, acc => digitsVal r (acc * 10 + (c.toNat - '0'.toNat))

/-- `int(tok.value)` on a digits-only lexeme. -/
def pyInt (s : String) : Int := Int.ofNat (digitsVal s.data 0)

mutual

/-- `Parser.parse_expression` up to building the first operand (prefix
unary handling and the primary alternatives), then postfix `++`/`--` and
the binary-operator loop. -/
def parseExpression (fuel : Nat) (st : PState) (minPrec : Nat) :
    Except String (Node × PState) :=
  match fuel with
  | 0 => .error "out of fuel"
  | fuel + 1 => do
    let tok ← peek st
    if tok.value ∈ ["!", "+", "-", "++", "--"] then do
      let op := tok.value
      let (_, st) ← pnext st
      let (e, st) ← parseExpression fuel st 7
      pure (.unaryOp (if op ∉ ["++", "--"] then op else "pre" ++ op) e, st)
    else do
      let (left, st) ←
        if tok.type = "INT" then do
          let (_, st) ← pnext st
          pure (Node.literal (.intV (pyInt tok.value)) "int", st)
        else if tok.type = "FLOAT" then do
          let (_, st) ← pnext st
          pure (Node.literal (.floatV tok.value) "float", st)
        else if tok.type = "CHAR" then do
          let (_, st) ← pnext st
          pure (Node.literal (.charV ⟨(tok.value.data.drop 1).dropLast⟩) "char", st)
        else if tok.type = "true" ∨ tok.type = "false" then do
          let (_, st) ← pnext st
          pure (Node.literal (.boolV (tok.type = "true")) "bool", st)
        else if tok.type = "ID" then do
          let (idtok, st) ← pnext st
          let tok2 ← peek st
          if tok2.value = "(" then do
            let (_, st) ← pnext st
            let tok3 ← peek st
            let (args, st) ←
              if tok3.value ≠ ")" then parseArgsLoop fuel st []
              else pure ([], st)
            let (_, st) ← expect st "SYMBOL" (some ")")
            pure (Node.funcCall idtok.value args, st)
          else
            pure (Node.varRef idtok.value, st)
        else if tok.value = "(" then do
          let (_, st) ← pnext st
          let (e, st) ← parseExpression fuel st 0
          let (_, st) ← expect st "SYMBOL" (some ")")
          pure (e, st)
        else
          .error ("Unexpected expression token " ++ tok.type ++ " " ++ tok.value
            ++ " at " ++ toString tok.line ++ ":" ++ toString tok.column)
      let (left, st) ← parsePostfixLoop fuel st left
      parseBinLoop fuel st minPrec left

/-- The `while self.peek().value in ('++','--')` postfix loop. -/
def parsePostfixLoop (fuel : Nat) (st : PState) (left : Node) :
    Except String (Node × PState) :=
  match fuel with
  | 0 => .error "out of fuel"
  | fuel + 1 => do
    let tok ← peek st
    if tok.value ∈ ["++", "--"] then do
      let (optok, st) ← pnext st
      parsePostfixLoop fuel st (.unaryOp ("post" ++ optok.value) left)
    else
      pure (left, st)

/-- The binary-operator precedence-climbing loop of `parse_expression`. -/
def parseBinLoop (fuel : Nat) (st : PState) (minPrec : Nat) (left : Node) :
    Except String (Node × PState) :=
  match fuel with
  | 0 => .error "out of fuel"
  | fuel + 1 => do
    let opTok ← peek st
    let op := opTok.value
    match PRECEDENCE op with
    | some prec =>
      if (opTok.type = "OP" ∨ opTok.type = "SYMBOL") ∧ prec ≥ minPrec then do
        let (_, st) ← pnext st
        let nextMin := if op ∈ ASSIGN_OPS then prec else prec + 1
        let (right, st) ← parseExpression fuel st nextMin
        parseBinLoop fuel st minPrec (.binaryOp op left right)
      else
        pure (left, st)
    | none => pure (left, st)

/-- The comma-separated argument-list loop inside `parse_expression`. -/
def parseArgsLoop (fuel : Nat) (st : PState) (acc : List Node) :
    Except String (List Node × PState) :=
  match fuel with
  | 0 => .error "out of fuel"
  | fuel + 1 => do
    let (a, st) ← parseExpression fuel st 0
    let tok ← peek st
    if tok.value = "," then do
      let (_, st) ← pnext st
      parseArgsLoop fuel st (acc ++ [a])
    else
      pure (acc ++ [a], st)

end

/-- The primitive type keywords accepted as the start of a declaration. -/
def DECL_TYPES : List String := ["int", "float", "char", "bool", "void"]

/-- The type keywords starting a local declaration inside a statement. -/
def LOCAL_DECL_TYPES : List String := ["int", "float", "char", "bool", "const"]

mutual

/-- `Parser.parse_declaration`. -/
def parseDeclaration (fuel : Nat) (st : PState) : Except String (Node × PState) :=
  match fuel with
  | 0 => .error "out of fuel"
  | fuel + 1 => do
    let tok ← peek st
    if tok.type = "const" then
      parseTypedDeclaration fuel st
    else if tok.type ∈ DECL_TYPES ∨ tok.type.toUpper ∈ ["INT", "FLOAT", "CHAR", "BOOL", "VOID"] then
      parseTypedDeclaration fuel st
    else
      .error ("Unexpected token " ++ tok.type ++ " at " ++ toString tok.line
        ++ ":" ++ toString tok.column)

/-- `Parser.parse_typed_declaration`: a function declaration, or a
comma-separated declarator group returned as a list (`pyList`). -/
def parseTypedDeclaration (fuel : Nat) (st : PState) : Except String (Node × PState) :=
  match fuel with
  | 0 => .error "out of fuel"
  | fuel + 1 => do
    let tok ← peek st
    let (isConst, st) ←
      if tok.type = "const" then do
        let (_, st) ← pnext st
        pure (true, st)
      else
        pure (false, st)
    let (typTok, st) ← pnext st
    let typ := typTok.value
    let (nameTok, st) ← expect st "ID" none
    let name := nameTok.value
    let tok2 ← peek st
    if tok2.value = "(" then do
      let (_, st) ← pnext st
      let tok3 ← peek st
      let (params, st) ←
        if tok3.value ≠ ")" then parseParamsLoop fuel st []
        else pure ([], st)
      let (_, st) ← expect st "SYMBOL" (some ")")
      let (body, st) ← parseCompound fuel st
      pure (Node.funcDecl typ name params body, st)
    else do
      let tok3 ← peek st
      let (firstInit, st) ←
        if tok3.value = "=" ∨ (tok3.type = "OP" ∧ tok3.value = "=") then do
          let (_, st) ← pnext st
          let (e, st) ← parseExpression fuel st 0
          pure (some e, st)
        else
          pure (none, st)
      let (decls, st) ← parseDeclaratorsLoop fuel st
        [Node.varDecl typ name firstInit isConst] typ isConst
      let (_, st) ← expect st "SYMBOL" (some ";")
      pure (Node.pyList decls, st)

/-- The `(type, identifier)` parameter-list loop of a function heading. -/
def parseParamsLoop (fuel : Nat) (st : PState) (acc : List (String × String)) :
    Except String (List (String × String) × PState) :=
  match fuel with
  | 0 => .error "out of fuel"
  | fuel + 1 => do
    let (ptypeTok, st) ← pnext st
    let (pnameTok, st) ← expect st "ID" none
    let acc := acc ++ [(ptypeTok.value, pnameTok.value)]
    let tok ← peek st
    if tok.value = "," then do
      let (_, st) ← pnext st
      parseParamsLoop fuel st acc
    else
      pure (acc, st)

/-- The `while self.peek().value == ','` declarator loop. -/
def parseDeclaratorsLoop (fuel : Nat) (st : PState) (acc : List Node)
    (typ : String) (isConst : Bool) : Except String (List Node × PState) :=
  match fuel with
  | 0 => .error "out of fuel"
  | fuel + 1 => do
    let tok ← peek st
    if tok.value = "," then do
      let (_, st) ← pnext st
      let (nameTok, st) ← expect st "ID" none
      let tok2 ← peek st
      let (init, st) ←
        if tok2.value = "=" ∨ (tok2.type = "OP" ∧ tok2.value = "=") then do
          let (_, st) ← pnext st
          let (e, st) ← parseExpression fuel st 0
          pure (some e, st)
        else
          pure (none, st)
      parseDeclaratorsLoop fuel st (acc ++ [Node.varDecl typ nameTok.value init isConst]) typ isConst
    else
      pure (acc, st)

/-- `Parser.parse_compound`. -/
def parseCompound (fuel : Nat) (st : PState) : Except String (Node × PState) :=
  match fuel with
  | 0 => .error "out of fuel"
  | fuel + 1 => do
    let tok ← peek st
    if tok.value ≠ "\x7b" then
      .error "Expected \x7b for compound"
    else do
      let (_, st) ← pnext st
      let (stmts, st) ← parseStmtListLoop fuel st []
      let (_, st) ← pnext st
      pure (Node.compound stmts, st)

/-- The `while self.peek().value != '}'` statement loop of a compound;
a statement that came back as a list is spliced (`extend`). -/
def parseStmtListLoop (fuel : Nat) (st : PState) (acc : List Node) :
    Except String (List Node × PState) :=
  match fuel with
  | 0 => .error "out of fuel"
  | fuel + 1 => do
    let tok ← peek st
    if tok.value ≠ "\x7d" then do
      let (s, st) ← parseStatement fuel st
      let acc := match s with
        | .pyList l => acc ++ l
        | n => acc ++ [n]
      parseStmtListLoop fuel st acc
    else
      pure (acc, st)

/-- `Parser.parse_statement`. -/
def parseStatement (fuel : Nat) (st : PState) : Except String (Node × PState) :=
  match fuel with
  | 0 => .error "out of fuel"
  | fuel + 1 => do
    let tok ← peek st
    if tok.type = "return" then do
      let (_, st) ← pnext st
      let tok2 ← peek st
      if tok2.value = ";" then do
        let (_, st) ← pnext st
        pure (Node.returnStmt none, st)
      else do
        let (e, st) ← parseExpression fuel st 0
        let (_, st) ← expect st "SYMBOL" (some ";")
        pure (Node.returnStmt (some e), st)
    else if tok.value = "\x7b" then
      parseCompound fuel st
    else if tok.type = "if" then do
      let (_, st) ← pnext st
      let (_, st) ← expect st "SYMBOL" (some "(")
      let (cond, st) ← parseExpression fuel st 0
      let (_, st) ← expect st "SYMBOL" (some ")")
      let (thenB, st) ← parseStatement fuel st
      let tok2 ← peek st
      if tok2.type = "else" then do
        let (_, st) ← pnext st
        let (elseB, st) ← parseStatement fuel st
        pure (Node.ifStmt cond thenB (some elseB), st)
      else
        pure (Node.ifStmt cond thenB none, st)
    else if tok.type = "while" then do
      let (_, st) ← pnext st
      let (_, st) ← expect st "SYMBOL" (some "(")
      let (cond, st) ← parseExpression fuel st 0
      let (_, st) ← expect st "SYMBOL" (some ")")
      let (body, st) ← parseStatement fuel st
      pure (Node.whileStmt cond body, st)
    else if tok.type = "for" then do
      let (_, st) ← pnext st
      let (_, st) ← expect st "SYMBOL" (some "(")
      let tok2 ← peek st
      let (init, st) ←
        if tok2.value = ";" then do
          let (_, st) ← pnext st
          pure (none, st)
        else if tok2.type ∈ LOCAL_DECL_TYPES then do
          let (d, st) ← parseDeclaration fuel st
          pure (some d, st)
        else do
          let (e, st) ← parseExpression fuel st 0
          let (_, st) ← expect st "SYMBOL" (some ";")
          pure (some e, st)
      let tok3 ← peek st
      let (cond, st) ←
        if tok3.value = ";" then do
          let (_, st) ← pnext st
          pure (none, st)
        else do
          let (e, st) ← parseExpression fuel st 0
          let (_, st) ← expect st "SYMBOL" (some ";")
          pure (some e, st)
      let tok4 ← peek st
      let (post, st) ←
        if tok4.value = ")" then
          pure (none, st)
        else do
          let (e, st) ← parseExpression fuel st 0
          pure (some e, st)
      let (_, st) ← expect st "SYMBOL" (some ")")
      let (body, st) ← parseStatement fuel st
      pure (Node.forStmt init cond post body, st)
    else if tok.type = "do" then do
      let (_, st) ← pnext st
      let (body, st) ← parseStatement fuel st
      let tok2 ← peek st
      if tok2.type ≠ "while" then
        .error "Expected while after do-block"
      else do
        let (_, st) ← pnext st
        let (_, st) ← expect st "SYMBOL" (some "(")
        let (cond, st) ← parseExpression fuel st 0
        let (_, st) ← expect st "SYMBOL" (some ")")
        let (_, st) ← expect st "SYMBOL" (some ";")
        pure (Node.whileStmt cond body, st)
    else if tok.type ∈ LOCAL_DECL_TYPES then
      parseTypedDeclaration fuel st
    else do
      let (e, st) ← parseExpression fuel st 0
      let (_, st) ← expect st "SYMBOL" (some ";")
      pure (Node.exprStmt e, st)

end

/-- The `while self.peek().type != 'EOF'` loop of `Parser.parse`. -/
def parseProgramLoop (fuel : Nat) (st : PState) (acc : List Node) :
    Except String (List Node × PState) :=
  match fuel with
  | 0 => .error "out of fuel"
  | fuel + 1 => do
    let tok ← peek st
    if tok.type ≠ "EOF" then do
      let (d, st) ← parseDeclaration fuel st
      let acc := match d with
        | .pyList l => acc ++ l
        | n => acc ++ [n]
      parseProgramLoop fuel st acc
    else
      pure (acc, st)

/-- Fuel that is ample for any recursion the parser performs on the given
token list (every recursive call consumes a unit, and the call depth is
bounded by a small multiple of the number of tokens). -/
def parseFuel (tokens : List Token) : Nat := 10 * tokens.length + 100

/-- `Parser(code).parse()`: tokenize, then parse top-level declarations. -/
def parseProgram (code : String) : Except String Program :=
  let tokens := tokenize code
  (parseProgramLoop (parseFuel tokens) ⟨tokens, 0⟩ []).map fun (ds, _) => ⟨ds⟩

/-- `Parser(code).parse_expression()` on a whole source string (used for
the expression-shape properties). -/
def parseExprSource (code : String) : Except String Node :=
  let tokens := tokenize code
  (parseExpression (parseFuel tokens) ⟨tokens, 0⟩ 0).map Prod.fst

/-! ## Semantic analyzer (`semantic.py`)

`self.errors` is append-only and never read, so every walk returns the
errors it emits (in emission order) and callers concatenate; the mutable
local scope dict is threaded explicitly. -/

/-- Scope entry `(type, is_const)`. -/
abbrev VarInfo := String × Bool

/-- What pass 1 stores for a function declaration (the fields of the
`FuncDecl` node that `check_function` and `infer_type` read). -/
structure FuncSig where
  retType : String
  name : String
  params : List (String × String)
  body : Node
deriving Repr

/-- Python `d[k]` / `k in d` on an insertion-ordered dict. -/
def alookup {α : Type} : List (String × α) → String → Option α
  | [], _ => none
  | (k, v) :: rest, n => if k = n then some v else alookup rest n

/-- Python `d[k] = v`: replace in place, else append. -/
def aset {α : Type} : List (String × α) → String → α → List (String × α)
  | [], n, v => [(n, v)]
  | (k, w) :: rest, n, v =>
      if k = n then (n, v) :: rest else (k, w) :: aset rest n v

/-- Analyzer state: `self.errors`, `self.global_scope`, `self.functions`. -/
structure ASt where
  errors : List String
  globalScope : List (String × VarInfo)
  functions : List (String × FuncSig)
deriving Repr

/-- A fresh `SemanticAnalyzer`. -/
def initASt : ASt := ⟨[], [], []⟩

def redeclGlobalMsg (n : String) : String := "Redeclaration of global " ++ n
def redeclFunctionMsg (n : String) : String := "Redeclaration of function " ++ n
def redeclLocalMsg (n fname : String) : String :=
  "Redeclaration of " ++ n ++ " in function " ++ fname
def funcAsValueMsg (n fname : String) : String :=
  "Function " ++ n ++ " used as value in function " ++ fname
def undeclaredMsg (n fname : String) : String :=
  "Use of undeclared identifier " ++ n ++ " in function " ++ fname
def callUndeclaredMsg (n fname : String) : String :=
  "Call to undeclared function " ++ n ++ " in function " ++ fname
def wrongArgsMsg (n fname : String) : String :=
  "Wrong number of arguments in call to " ++ n ++ " in function " ++ fname
def argMismatchMsg (i : Nat) (n expected got : String) : String :=
  "Type mismatch for argument " ++ toString i ++ " in call to " ++ n
    ++ ": expected " ++ expected ++ ", got " ++ got
def initMismatchMsg (n it vt fname : String) : String :=
  "Type mismatch in initializer for " ++ n ++ ": " ++ it ++ " -> " ++ vt
    ++ " in function " ++ fname
def retMismatchMsg (fname fret got : String) : String :=
  "Return type mismatch in function " ++ fname ++ ": expected " ++ fret
    ++ ", got " ++ got
def constVarMsg (n fname : String) : String :=
  "Assignment to const variable " ++ n ++ " in function " ++ fname
def constGlobalMsg (n fname : String) : String :=
  "Assignment to const global " ++ n ++ " in function " ++ fname

mutual

/-- `check_function.infer_type`: the errors it appends and the inferred
type (`none` is Python's `None`). -/
def inferType (gs : List (String × VarInfo)) (fns : List (String × FuncSig))
    (fname : String) (scope : List (String × VarInfo)) :
    Node → List String × Option String
  | .literal _ typ => ([], some typ)
  | .unaryOp op e =>
      -- `op in ('!')` is a substring test on the string `'!'`, hence also
      -- true for the empty string; all other operator tags reach the later
      -- `infer_type(node.expr)` fallthrough.
      if op = "!" ∨ op = "" ∨ op = "pre!" ∨ op = "post!" then ([], some "bool")
      else inferType gs fns fname scope e
  | .varRef n =>
      (match alookup scope n with
      | some (t, _) => ([], some t)
      | none =>
        match alookup gs n with
        | some (t, _) => ([], some t)
        | none =>
          if (alookup fns n).isSome then
            ([funcAsValueMsg n fname], none)
          else
            ([undeclaredMsg n fname], none))
  | .funcCall n args =>
      (match alookup fns n with
      | none => ([callUndeclaredMsg n fname], none)
      | some callee =>
          let arityErrs :=
            if args.length ≠ callee.params.length then [wrongArgsMsg n fname] else []
          let argErrs := inferArgs gs fns fname scope n callee 0 args
          (arityErrs ++ argErrs, some callee.retType))
  | .binaryOp op l r =>
      let lres := inferType gs fns fname scope l
      let rres := inferType gs fns fname scope r
      let emitted := lres.1 ++ rres.1
      if op ∈ ["+", "-", "*", "/", "%"] then
        (emitted, some (if lres.2 = some "float" ∨ rres.2 = some "float" then "float" else "int"))
      else if op ∈ ["==", "!=", "<", ">", "<=", ">="] then
        (emitted, some "bool")
      else if op ∈ ["&&", "||"] then
        (emitted, some "bool")
      else if op ∈ ASSIGN_OPS then
        (emitted,
          match l with
          | .varRef lname =>
            (match alookup scope lname with
            | some (t, _) => some t
            | none =>
              match alookup gs lname with
              | some (t, _) => some t
              | none => none)
          | _ => none)
      else
        (emitted, none)
  | _ => ([], none)

/-- The `for i, a in enumerate(node.args)` argument-checking loop. -/
def inferArgs (gs : List (String × VarInfo)) (fns : List (String × FuncSig))
    (fname : String) (scope : List (String × VarInfo)) (cname : String)
    (callee : FuncSig) (i : Nat) : List Node → List String
  | [] => []
  | a :: rest =>
      let ares := inferType gs fns fname scope a
      let mism :=
        if h : i < callee.params.length then
          let expected := (callee.params.get ⟨i, h⟩).1
          match ares.2 with
          | some t =>
              if t ≠ "" ∧ expected ≠ "" ∧ t ≠ expected ∧ ¬(t = "int" ∧ expected = "float")
              then [argMismatchMsg (i + 1) cname expected t] else []
          | none => []
        else []
      ares.1 ++ mism ++ inferArgs gs fns fname scope cname callee (i + 1) rest

end

mutual

/-- `check_function.visit`: emitted errors plus the local scope as left
after the walk (the Python closure mutates `scope` in place). -/
def visit (gs : List (String × VarInfo)) (fns : List (String × FuncSig))
    (fname fret : String) (scope : List (String × VarInfo)) :
    Node → List String × List (String × VarInfo)
  | .compound stmts => visitList gs fns fname fret scope stmts
  | .varDecl vt n init isC =>
      let redecl := if (alookup scope n).isSome then [redeclLocalMsg n fname] else []
      let scope := aset scope n (vt, isC)
      (match init with
      | some ie =>
          let ires := inferType gs fns fname scope ie
          let mism :=
            match ires.2 with
            | some t =>
                if t ≠ "" ∧ t ≠ vt ∧ ¬(t = "int" ∧ vt = "float")
                then [initMismatchMsg n t vt fname] else []
            | none => []
          let vres := visit gs fns fname fret scope ie
          (redecl ++ ires.1 ++ mism ++ vres.1, vres.2)
      | none => (redecl, scope))
  | .ifStmt c t e =>
      let r1 := visit gs fns fname fret scope c
      let r2 := visit gs fns fname fret r1.2 t
      (match e with
      | some el =>
          let r3 := visit gs fns fname fret r2.2 el
          (r1.1 ++ r2.1 ++ r3.1, r3.2)
      | none => (r1.1 ++ r2.1, r2.2))
  | .whileStmt c b =>
      let r1 := visit gs fns fname fret scope c
      let r2 := visit gs fns fname fret r1.2 b
      (r1.1 ++ r2.1, r2.2)
  | .returnStmt oe =>
      (match oe with
      | none => ([], scope)
      | some e =>
          let ires := inferType gs fns fname scope e
          let mism :=
            if fret ≠ "void" then
              match ires.2 with
              | some r =>
                  if r ≠ "" ∧ r ≠ fret ∧ ¬(r = "int" ∧ fret = "float")
                  then [retMismatchMsg fname fret r] else []
              | none => []
            else []
          let vres := visit gs fns fname fret scope e
          (ires.1 ++ mism ++ vres.1, vres.2))
  | .exprStmt e => visit gs fns fname fret scope e
  | .binaryOp op l r =>
      let constErrs :=
        if op ∈ ASSIGN_OPS then
          match l with
          | .varRef lname =>
              (match alookup scope lname with
               | some (_, true) => [constVarMsg lname fname]
               | _ => []) ++
              (match alookup gs lname with
               | some (_, true) => [constGlobalMsg lname fname]
               | _ => [])
          | _ => []
        else []
      let r1 := visit gs fns fname fret scope l
      let r2 := visit gs fns fname fret r1.2 r
      (constErrs ++ r1.1 ++ r2.1, r2.2)
  | .unaryOp _ e => visit gs fns fname fret scope e
  | .varRef n =>
      if (alookup scope n).isNone ∧ (alookup gs n).isNone ∧ (alookup fns n).isNone
      then ([undeclaredMsg n fname], scope)
      else ([], scope)
  | .funcCall n args =>
      let e0 := if (alookup fns n).isNone then [callUndeclaredMsg n fname] else []
      let ares := visitList gs fns fname fret scope args
      (e0 ++ ares.1, ares.2)
  | .literal _ _ => ([], scope)
  | _ => ([], scope)

/-- `for s in node.statements: visit(s)` (also the argument loop of the
`FuncCall` case). -/
def visitList (gs : List (String × VarInfo)) (fns : List (String × FuncSig))
    (fname fret : String) (scope : List (String × VarInfo)) :
    List Node → List String × List (String × VarInfo)
  | [] => ([], scope)
  | s :: rest =>
      let r1 := visit gs fns fname fret scope s
      let r2 := visitList gs fns fname fret r1.2 rest
      (r1.1 ++ r2.1, r2.2)

end

/-- `SemanticAnalyzer.check_function`: local scope seeded from the
parameters (a dict comprehension, later duplicates overwriting), then the
body walk; returns the emitted errors. -/
def checkFunction (gs : List (String × VarInfo)) (fns : List (String × FuncSig))
    (f : FuncSig) : List String :=
  let scope := f.params.foldl (fun sc p => aset sc p.2 (p.1, false)) []
  (visit gs fns f.name f.retType scope f.body).1

/-- Pass 1 of `analyze`, for one top-level declaration. -/
def pass1Step (st : ASt) (d : Node) : ASt :=
  match d with
  | .varDecl vt n _ c =>
      if (alookup st.globalScope n).isSome then
        { st with errors := st.errors ++ [redeclGlobalMsg n] }
      else
        { st with globalScope := st.globalScope ++ [(n, (vt, c))] }
  | .funcDecl rt n ps b =>
      if (alookup st.functions n).isSome then
        { st with errors := st.errors ++ [redeclFunctionMsg n] }
      else
        { st with functions := st.functions ++ [(n, ⟨rt, n, ps, b⟩)] }
  | _ => st

/-- Pass 1 of `analyze`: collect globals and functions. -/
def pass1 (st : ASt) (decls : List Node) : ASt :=
  decls.foldl pass1Step st

/-- Pass 2 of `analyze`: `for fname, fdecl in self.functions.items()`. -/
def pass2Errors (gs : List (String × VarInfo)) (fns : List (String × FuncSig)) :
    List String :=
  fns.foldl (fun errs p => errs ++ checkFunction gs fns p.2) []

/-- `SemanticAnalyzer.analyze` as a transformation of the analyzer state
(calling it again corresponds to applying `analyze` to the result). -/
def analyze (prog : Program) (st : ASt) : ASt :=
  let st1 := pass1 st prog.declarations
  { st1 with errors := st1.errors ++ pass2Errors st1.globalScope st1.functions }

/-- Parse a source string and run one `analyze` on a fresh analyzer,
yielding the diagnostics list. -/
def analyzeSource (code : String) : Except String (List String) :=
  (parseProgram code).map fun p => (analyze p initASt).errors

/-! ## Counting and lookup helpers used to state the claims -/

/-- Number of occurrences of a message in a diagnostics list. -/
def countMsg (msg : String) : List String → Nat
  | [] => 0
  | e :: r => (if e = msg then 1 else 0) + countMsg msg r

/-- Number of top-level `VarDecl`s with the given name. -/
def countVarNamed (n : String) : List Node → Nat
  | [] => 0
  | .varDecl _ m _ _ :: r => (if m = n then 1 else 0) + countVarNamed n r
  | _ :: r => countVarNamed n r

/-- Number of top-level `FuncDecl`s with the given name. -/
def countFunNamed (n : String) : List Node → Nat
  | [] => 0
  | .funcDecl _ m _ _ :: r => (if m = n then 1 else 0) + countFunNamed n r
  | _ :: r => countFunNamed n r

/-- `(type, is_const)` of the first top-level `VarDecl` with this name. -/
def firstVarInfo (n : String) : List Node → Option VarInfo
  | [] => none
  | .varDecl vt m _ c :: r => if m = n then some (vt, c) else firstVarInfo n r
  | _ :: r => firstVarInfo n r

/-- Signature of the first top-level `FuncDecl` with this name. -/
def firstFunSig (n : String) : List Node → Option FuncSig
  | [] => none
  | .funcDecl rt m ps b :: r =>
      if m = n then some ⟨rt, m, ps, b⟩ else firstFunSig n r
  | _ :: r => firstFunSig n r

/-- The node kinds pass 1 registers (what the parser puts at top level). -/
def isTopLevel : Node → Bool
  | .varDecl _ _ _ _ => true
  | .funcDecl _ _ _ _ => true
  | _ => false

/-- The declaration's name is already present in the analyzer's table. -/
def registered (d : Node) (st : ASt) : Bool :=
  match d with
  | .varDecl _ n _ _ => (alookup st.globalScope n).isSome
  | .funcDecl _ n _ _ => (alookup st.functions n).isSome
  | _ => true

/-- The redeclaration message pass 1 emits for an already-registered
top-level declaration. -/
def redeclMsgOf : Node → String
  | .varDecl _ n _ _ => redeclGlobalMsg n
  | .funcDecl _ n _ _ => redeclFunctionMsg n
  | _ => ""

/-! ## Properties of the lexical rules -/

theorem matchCOMMENT_ne_nil {cs l} (h : matchCOMMENT cs = some l) : l ≠ [] := by
  rw [matchCOMMENT.eq_def] at h
  split at h
  · injection h with h; rw [← h]; simp
  · simp at h

theorem matchMULTICOMMENT_ne_nil {cs l} (h : matchMULTICOMMENT cs = some l) :
    l ≠ [] := by
  rw [matchMULTICOMMENT.eq_def] at h
  split at h
  · rw [Option.map_eq_some'] at h
    obtain ⟨a, _, h⟩ := h
    rw [← h]; simp
  · simp at h

theorem matchCHAR_ne_nil {cs l} (h : matchCHAR cs = some l) : l ≠ [] := by
  rw [matchCHAR.eq_def] at h
  split at h
  · split at h
    · injection h with h; rw [← h]; simp
    · simp at h
  · split at h
    · injection h with h; rw [← h]; simp
    · simp at h
  · simp at h

theorem matchFLOAT_ne_nil {cs l} (h : matchFLOAT cs = some l) : l ≠ [] := by
  rw [matchFLOAT.eq_def] at h
  simp only at h
  split at h
  · simp at h
  · split at h
    · split at h
      · simp at h
      · injection h with h; rw [← h]; simp
    · simp at h

theorem matchINT_ne_nil {cs l} (h : matchINT cs = some l) : l ≠ [] := by
  rw [matchINT.eq_def] at h
  simp only at h
  split at h
  · simp at h
  · rename_i hne
    injection h with h
    rw [← h]; exact hne

theorem matchID_ne_nil {cs l} (h : matchID cs = some l) : l ≠ [] := by
  rw [matchID.eq_def] at h
  split at h
  · split at h
    · injection h with h; rw [← h]; simp
    · simp at h
  · simp at h

theorem firstPrefix_mem {ops : List (List Char)} {cs l}
    (h : firstPrefix ops cs = some l) : l ∈ ops := by
  induction ops with
  | nil => simp [firstPrefix] at h
  | cons op rest ih =>
    simp only [firstPrefix] at h
    split at h
    · injection h with h; rw [← h]; exact List.mem_cons_self _ _
    · exact List.mem_cons_of_mem _ (ih h)

theorem matchOP_ne_nil {cs l} (h : matchOP cs = some l) : l ≠ [] := by
  have hm : l ∈ OPS := firstPrefix_mem h
  have hall : ∀ x ∈ OPS, x ≠ ([] : List Char) := by decide
  exact hall l hm

theorem matchSYMBOL_ne_nil {cs l} (h : matchSYMBOL cs = some l) : l ≠ [] := by
  rw [matchSYMBOL.eq_def] at h
  split at h
  · split at h
    · injection h with h; rw [← h]; simp
    · simp at h
  · simp at h

theorem matchSKIP_ne_nil {cs l} (h : matchSKIP cs = some l) : l ≠ [] := by
  rw [matchSKIP.eq_def] at h
  simp only at h
  split at h
  · simp at h
  · rename_i hne
    injection h with h
    rw [← h]; exact hne

theorem matchNEWLINE_ne_nil {cs l} (h : matchNEWLINE cs = some l) : l ≠ [] := by
  rw [matchNEWLINE.eq_def] at h
  split at h
  · injection h with h; rw [← h]; simp
  · simp at h

/-- Every rule matches a nonempty lexeme. -/
theorem tryRules_lexeme_ne_nil {cs : List Char} {k : String} {l : List Char}
    (h : tryRules cs = some (k, l)) : l ≠ [] := by
  unfold tryRules at h
  split at h
  · injection h with h; cases h; exact matchCOMMENT_ne_nil (by assumption)
  split at h
  · injection h with h; cases h; exact matchMULTICOMMENT_ne_nil (by assumption)
  split at h
  · injection h with h; cases h; exact matchCHAR_ne_nil (by assumption)
  split at h
  · injection h with h; cases h; exact matchFLOAT_ne_nil (by assumption)
  split at h
  · injection h with h; cases h; exact matchINT_ne_nil (by assumption)
  split at h
  · injection h with h; cases h; exact matchID_ne_nil (by assumption)
  split at h
  · injection h with h; cases h; exact matchOP_ne_nil (by assumption)
  split at h
  · injection h with h; cases h; exact matchSYMBOL_ne_nil (by assumption)
  split at h
  · injection h with h; cases h; exact matchSKIP_ne_nil (by assumption)
  split at h
  · injection h with h; cases h; exact matchNEWLINE_ne_nil (by assumption)
  · simp at h


/-- The fuel argument of `scan` is an artifact: any two fuels larger than
the remaining input length give the same result. -/
theorem scan_fuel_irrelevant :
    ∀ n (f₁ f₂ : Nat) (cs : List Char) (pos lineNum lineStart : Nat),
      cs.length ≤ n → cs.length < f₁ → cs.length < f₂ →
      scan f₁ cs pos lineNum lineStart = scan f₂ cs pos lineNum lineStart := by
  intro n
  induction n with
  | zero =>
    intro f₁ f₂ cs pos lineNum lineStart hn h1 h2
    have hcs : cs = [] := List.eq_nil_of_length_eq_zero (Nat.le_zero.mp hn)
    subst hcs
    obtain ⟨f₁', rfl⟩ := Nat.exists_eq_succ_of_ne_zero (Nat.pos_iff_ne_zero.mp h1)
    obtain ⟨f₂', rfl⟩ := Nat.exists_eq_succ_of_ne_zero (Nat.pos_iff_ne_zero.mp h2)
    rfl
  | succ n ih =>
    intro f₁ f₂ cs pos lineNum lineStart hn h1 h2
    obtain ⟨g₁, rfl⟩ : ∃ k, f₁ = k + 1 := ⟨f₁ - 1, by omega⟩
    obtain ⟨g₂, rfl⟩ : ∃ k, f₂ = k + 1 := ⟨f₂ - 1, by omega⟩
    cases cs with
    | nil => rfl
    | cons c rest =>
      cases htr : tryRules (c :: rest) with
      | none =>
        simp only [scan, htr]
        apply ih
        · simp only [List.length_cons] at hn; omega
        · simp only [List.length_cons] at h1; omega
        · simp only [List.length_cons] at h2; omega
      | some kl =>
        obtain ⟨kind, lex⟩ := kl
        simp only [scan, htr]
        have hlex : 0 < lex.length := List.length_pos.mpr (tryRules_lexeme_ne_nil htr)
        have h3 : ((c :: rest).drop lex.length).length ≤ n := by
          simp only [List.length_drop, List.length_cons] at *; omega
        have h4 : ((c :: rest).drop lex.length).length < g₁ := by
          simp only [List.length_drop, List.length_cons] at *; omega
        have h5 : ((c :: rest).drop lex.length).length < g₂ := by
          simp only [List.length_drop, List.length_cons] at *; omega
        split
        · exact ih _ _ _ _ _ _ h3 h4 h5
        · split
          · exact ih _ _ _ _ _ _ h3 h4 h5
          · rw [ih _ _ _ _ _ _ h3 h4 h5]

/-- `tryRules` only returns group names from the rule table. -/
theorem tryRules_kind {cs : List Char} {k : String} {l : List Char}
    (h : tryRules cs = some (k, l)) : k ∈ RULE_KINDS := by
  unfold tryRules at h
  split at h
  · injection h with h; cases h; decide
  split at h
  · injection h with h; cases h; decide
  split at h
  · injection h with h; cases h; decide
  split at h
  · injection h with h; cases h; decide
  split at h
  · injection h with h; cases h; decide
  split at h
  · injection h with h; cases h; decide
  split at h
  · injection h with h; cases h; decide
  split at h
  · injection h with h; cases h; decide
  split at h
  · injection h with h; cases h; decide
  split at h
  · injection h with h; cases h; decide
  · simp at h

/-- No token emitted by the scanning loop has the reserved `EOF` kind. -/
theorem scan_no_eof :
    ∀ fuel (cs : List Char) (pos lineNum lineStart : Nat) (t : Token),
      t ∈ (scan fuel cs pos lineNum lineStart).1 → t.type ≠ "EOF" := by
  intro fuel
  induction fuel with
  | zero => intro cs pos l ls t ht; simp [scan] at ht
  | succ fuel ih =>
    intro cs pos l ls t ht
    cases cs with
    | nil => simp [scan] at ht
    | cons c rest =>
      cases htr : tryRules (c :: rest) with
      | none =>
        simp only [scan, htr] at ht
        exact ih _ _ _ _ _ ht
      | some kl =>
        obtain ⟨kind, lex⟩ := kl
        simp only [scan, htr] at ht
        split at ht
        · exact ih _ _ _ _ _ ht
        · split at ht
          · exact ih _ _ _ _ _ ht
          · simp only [List.mem_cons] at ht
            cases ht with
            | inl he =>
              rw [he]
              split
              · rename_i hkw
                have hall : ∀ v ∈ KEYWORDS, v ≠ "EOF" := by decide
                exact hall _ hkw.2
              · have hall : ∀ v ∈ RULE_KINDS, v ≠ "EOF" := by decide
                exact hall _ (tryRules_kind htr)
            | inr ht => exact ih _ _ _ _ _ ht

/-! ## Generic facts about the association-list model of Python dicts -/

theorem alookup_append {α : Type} (l : List (String × α)) (k : String) (v : α)
    (n : String) :
    alookup (l ++ [(k, v)]) n =
      match alookup l n with
      | some w => some w
      | none => if k = n then some v else none := by
  induction l with
  | nil => simp [alookup]
  | cons p r ih =>
    obtain ⟨k', w'⟩ := p
    simp only [List.cons_append, alookup]
    split
    · rfl
    · exact ih

theorem alookup_append_isSome {α : Type} {l : List (String × α)} {n : String}
    (k : String) (v : α) (h : (alookup l n).isSome = true) :
    (alookup (l ++ [(k, v)]) n).isSome = true := by
  rw [alookup_append]
  cases hl : alookup l n with
  | none => rw [hl] at h; simp at h
  | some w => simp

theorem alookup_aset_self {α : Type} (l : List (String × α)) (n : String) (v : α) :
    alookup (aset l n v) n = some v := by
  induction l with
  | nil => simp [aset, alookup]
  | cons p r ih =>
    obtain ⟨k, w⟩ := p
    simp only [aset]
    split
    · simp [alookup]
    · rename_i hk
      simp only [alookup]
      rw [if_neg hk]
      exact ih

theorem countMsg_append (msg : String) (a b : List String) :
    countMsg msg (a ++ b) = countMsg msg a + countMsg msg b := by
  induction a with
  | nil => simp [countMsg]
  | cons e r ih =>
    show (if e = msg then 1 else 0) + countMsg msg (r ++ b) =
      (if e = msg then 1 else 0) + countMsg msg r + countMsg msg b
    rw [ih]
    omega

/-! ## Disjointness of the diagnostic message families -/

theorem str_append_right_inj (p : String) {a b : String} (h : p ++ a = p ++ b) :
    a = b := by
  apply String.ext
  have hd := congrArg String.data h
  simp only [String.data_append] at hd
  exact List.append_cancel_left hd

theorem redeclGlobalMsg_inj {m n : String}
    (h : redeclGlobalMsg m = redeclGlobalMsg n) : m = n :=
  str_append_right_inj _ h

theorem redeclFunctionMsg_inj {m n : String}
    (h : redeclFunctionMsg m = redeclFunctionMsg n) : m = n :=
  str_append_right_inj _ h

theorem redeclFunctionMsg_ne_global (m n : String) :
    redeclFunctionMsg m ≠ redeclGlobalMsg n := by
  intro h
  have hd := congrArg String.data h
  simp only [redeclFunctionMsg, redeclGlobalMsg, String.data_append] at hd
  simp at hd

/-! ## Pass 1: redeclaration counting and first-wins registration -/

theorem pass1_countVar (n : String) :
    ∀ (decls : List Node) (st : ASt),
      countMsg (redeclGlobalMsg n) (pass1 st decls).errors =
        countMsg (redeclGlobalMsg n) st.errors +
          (if (alookup st.globalScope n).isSome then countVarNamed n decls
           else countVarNamed n decls - 1) := by
  intro decls
  induction decls with
  | nil =>
    intro st
    simp [pass1, countVarNamed, ite_self]
  | cons d rest ih =>
    intro st
    have hstep : pass1 st (d :: rest) = pass1 (pass1Step st d) rest := rfl
    rw [hstep, ih]
    cases d
    case varDecl vt m ini c =>
      simp only [pass1Step]
      split
      · rename_i hp
        rw [countMsg_append]
        by_cases hmn : m = n
        · subst hmn
          simp only [countMsg, if_pos rfl]
          rw [if_pos hp, if_pos hp]
          simp only [countVarNamed]
          simp
          try omega
        · have h0 : countMsg (redeclGlobalMsg n) [redeclGlobalMsg m] = 0 := by
            simp only [countMsg]
            rw [if_neg (fun h => hmn (redeclGlobalMsg_inj h))]
          rw [h0]
          have hc : countVarNamed n (Node.varDecl vt m ini c :: rest) =
              countVarNamed n rest := by
            simp [countVarNamed, hmn]
          rw [hc]
          split <;> omega
      · rename_i hp
        dsimp only
        by_cases hmn : m = n
        · subst hmn
          have hnone : alookup st.globalScope m = none := by
            cases h : alookup st.globalScope m with
            | none => rfl
            | some v => rw [h] at hp; simp at hp
          have hlook : (alookup (st.globalScope ++ [(m, (vt, c))]) m).isSome = true := by
            rw [alookup_append, hnone]
            simp
          rw [if_pos hlook, if_neg (by rw [hnone]; simp)]
          simp only [countVarNamed]
          simp
          try omega
        · have hlook : alookup (st.globalScope ++ [(m, (vt, c))]) n =
              alookup st.globalScope n := by
            rw [alookup_append]
            cases h : alookup st.globalScope n with
            | some v => rfl
            | none => simp [hmn]
          rw [hlook]
          have hc : countVarNamed n (Node.varDecl vt m ini c :: rest) =
              countVarNamed n rest := by
            simp [countVarNamed, hmn]
          rw [hc]
    case funcDecl rt m ps b =>
      simp only [pass1Step]
      split
      · rw [countMsg_append]
        have h0 : countMsg (redeclGlobalMsg n) [redeclFunctionMsg m] = 0 := by
          simp only [countMsg]
          rw [if_neg (redeclFunctionMsg_ne_global m n)]
        rw [h0]
        have hc : countVarNamed n (Node.funcDecl rt m ps b :: rest) =
            countVarNamed n rest := by
          simp [countVarNamed]
        rw [hc]
        split <;> omega
      · have hc : countVarNamed n (Node.funcDecl rt m ps b :: rest) =
            countVarNamed n rest := by
          simp [countVarNamed]
        rw [hc]
    all_goals (simp only [pass1Step]; simp [countVarNamed])

theorem pass1_countFun (n : String) :
    ∀ (decls : List Node) (st : ASt),
      countMsg (redeclFunctionMsg n) (pass1 st decls).errors =
        countMsg (redeclFunctionMsg n) st.errors +
          (if (alookup st.functions n).isSome then countFunNamed n decls
           else countFunNamed n decls - 1) := by
  intro decls
  induction decls with
  | nil =>
    intro st
    simp [pass1, countFunNamed, ite_self]
  | cons d rest ih =>
    intro st
    have hstep : pass1 st (d :: rest) = pass1 (pass1Step st d) rest := rfl
    rw [hstep, ih]
    cases d
    case funcDecl rt m ps b =>
      simp only [pass1Step]
      split
      · rename_i hp
        rw [countMsg_append]
        by_cases hmn : m = n
        · subst hmn
          simp only [countMsg, if_pos rfl]
          rw [if_pos hp, if_pos hp]
          simp only [countFunNamed]
          simp
          try omega
        · have h0 : countMsg (redeclFunctionMsg n) [redeclFunctionMsg m] = 0 := by
            simp only [countMsg]
            rw [if_neg (fun h => hmn (redeclFunctionMsg_inj h))]
          rw [h0]
          have hc : countFunNamed n (Node.funcDecl rt m ps b :: rest) =
              countFunNamed n rest := by
            simp [countFunNamed, hmn]
          rw [hc]
          split <;> omega
      · rename_i hp
        dsimp only
        by_cases hmn : m = n
        · subst hmn
          have hnone : alookup st.functions m = none := by
            cases h : alookup st.functions m with
            | none => rfl
            | some v => rw [h] at hp; simp at hp
          have hlook : (alookup (st.functions ++ [(m, FuncSig.mk rt m ps b)]) m).isSome = true := by
            rw [alookup_append, hnone]
            simp
          rw [if_pos hlook, if_neg (by rw [hnone]; simp)]
          simp only [countFunNamed]
          simp
          try omega
        · have hlook : alookup (st.functions ++ [(m, FuncSig.mk rt m ps b)]) n =
              alookup st.functions n := by
            rw [alookup_append]
            cases h : alookup st.functions n with
            | some v => rfl
            | none => simp [hmn]
          rw [hlook]
          have hc : countFunNamed n (Node.funcDecl rt m ps b :: rest) =
              countFunNamed n rest := by
            simp [countFunNamed, hmn]
          rw [hc]
    case varDecl vt m ini c =>
      simp only [pass1Step]
      split
      · rw [countMsg_append]
        have h0 : countMsg (redeclFunctionMsg n) [redeclGlobalMsg m] = 0 := by
          simp only [countMsg]
          rw [if_neg (fun h => redeclFunctionMsg_ne_global n m h.symm)]
        rw [h0]
        have hc : countFunNamed n (Node.varDecl vt m ini c :: rest) =
            countFunNamed n rest := by
          simp [countFunNamed]
        rw [hc]
        split <;> omega
      · have hc : countFunNamed n (Node.varDecl vt m ini c :: rest) =
            countFunNamed n rest := by
          simp [countFunNamed]
        rw [hc]
    all_goals (simp only [pass1Step]; simp [countFunNamed])

theorem pass1_lookupVar (n : String) :
    ∀ (decls : List Node) (st : ASt),
      alookup (pass1 st decls).globalScope n =
        match alookup st.globalScope n with
        | some v => some v
        | none => firstVarInfo n decls := by
  intro decls
  induction decls with
  | nil =>
    intro st
    cases h : alookup st.globalScope n <;> simp [pass1, firstVarInfo, h]
  | cons d rest ih =>
    intro st
    have hstep : pass1 st (d :: rest) = pass1 (pass1Step st d) rest := rfl
    rw [hstep, ih]
    cases d
    case varDecl vt m ini c =>
      by_cases hp : (alookup st.globalScope m).isSome = true
      · have hps : pass1Step st (Node.varDecl vt m ini c) =
            { st with errors := st.errors ++ [redeclGlobalMsg m] } := by
          simp [pass1Step, hp]
        rw [hps]
        dsimp only
        cases h : alookup st.globalScope n with
        | some v => simp [h]
        | none =>
          by_cases hmn : m = n
          · subst hmn; rw [h] at hp; simp at hp
          · simp [h, firstVarInfo, hmn]
      · have hps : pass1Step st (Node.varDecl vt m ini c) =
            { st with globalScope := st.globalScope ++ [(m, (vt, c))] } := by
          simp [pass1Step, hp]
        rw [hps]
        dsimp only
        rw [alookup_append]
        cases h : alookup st.globalScope n with
        | some v => simp [h]
        | none =>
          by_cases hmn : m = n
          · subst hmn; simp [h, firstVarInfo]
          · simp [h, firstVarInfo, hmn]
    case funcDecl rt m ps b =>
      by_cases hp : (alookup st.functions m).isSome = true
      · have hps : pass1Step st (Node.funcDecl rt m ps b) =
            { st with errors := st.errors ++ [redeclFunctionMsg m] } := by
          simp [pass1Step, hp]
        rw [hps]
        dsimp only
        cases h : alookup st.globalScope n <;> simp [h, firstVarInfo]
      · have hps : pass1Step st (Node.funcDecl rt m ps b) =
            { st with functions := st.functions ++ [(m, FuncSig.mk rt m ps b)] } := by
          simp [pass1Step, hp]
        rw [hps]
        dsimp only
        cases h : alookup st.globalScope n <;> simp [h, firstVarInfo]
    all_goals
      simp only [pass1Step]
      cases h : alookup st.globalScope n <;> simp [h, firstVarInfo]

theorem pass1_lookupFun (n : String) :
    ∀ (decls : List Node) (st : ASt),
      alookup (pass1 st decls).functions n =
        match alookup st.functions n with
        | some v => some v
        | none => firstFunSig n decls := by
  intro decls
  induction decls with
  | nil =>
    intro st
    cases h : alookup st.functions n <;> simp [pass1, firstFunSig, h]
  | cons d rest ih =>
    intro st
    have hstep : pass1 st (d :: rest) = pass1 (pass1Step st d) rest := rfl
    rw [hstep, ih]
    cases d
    case funcDecl rt m ps b =>
      by_cases hp : (alookup st.functions m).isSome = true
      · have hps : pass1Step st (Node.funcDecl rt m ps b) =
            { st with errors := st.errors ++ [redeclFunctionMsg m] } := by
          simp [pass1Step, hp]
        rw [hps]
        dsimp only
        cases h : alookup st.functions n with
        | some v => simp [h]
        | none =>
          by_cases hmn : m = n
          · subst hmn; rw [h] at hp; simp at hp
          · simp [h, firstFunSig, hmn]
      · have hps : pass1Step st (Node.funcDecl rt m ps b) =
            { st with functions := st.functions ++ [(m, FuncSig.mk rt m ps b)] } := by
          simp [pass1Step, hp]
        rw [hps]
        dsimp only
        rw [alookup_append]
        cases h : alookup st.functions n with
        | some v => simp [h]
        | none =>
          by_cases hmn : m = n
          · subst hmn; simp [h, firstFunSig]
          · simp [h, firstFunSig, hmn]
    case varDecl vt m ini c =>
      by_cases hp : (alookup st.globalScope m).isSome = true
      · have hps : pass1Step st (Node.varDecl vt m ini c) =
            { st with errors := st.errors ++ [redeclGlobalMsg m] } := by
          simp [pass1Step, hp]
        rw [hps]
        dsimp only
        cases h : alookup st.functions n <;> simp [h, firstFunSig]
      · have hps : pass1Step st (Node.varDecl vt m ini c) =
            { st with globalScope := st.globalScope ++ [(m, (vt, c))] } := by
          simp [pass1Step, hp]
        rw [hps]
        dsimp only
        cases h : alookup st.functions n <;> simp [h, firstFunSig]
    all_goals
      simp only [pass1Step]
      cases h : alookup st.functions n <;> simp [h, firstFunSig]

/-! ## Re-running pass 1 over already-registered declarations -/

theorem registered_errors (d : Node) (st : ASt) (e : List String) :
    registered d { st with errors := e } = registered d st := by
  cases d <;> rfl

theorem pass1Step_preserves_registered (d e : Node) (st : ASt)
    (h : registered d st = true) : registered d (pass1Step st e) = true := by
  cases d <;> simp only [registered] at h ⊢ <;> try rfl
  case varDecl vt n ini c =>
    cases e <;> simp only [pass1Step] <;> try exact h
    case varDecl vt' m ini' c' =>
      split
      · exact h
      · exact alookup_append_isSome _ _ h
    case funcDecl rt' m ps' b' =>
      split
      · exact h
      · exact h
  case funcDecl rt n ps b =>
    cases e <;> simp only [pass1Step] <;> try exact h
    case varDecl vt' m ini' c' =>
      split
      · exact h
      · exact h
    case funcDecl rt' m ps' b' =>
      split
      · exact h
      · exact alookup_append_isSome _ _ h

theorem pass1_preserves_registered (decls : List Node) :
    ∀ (st : ASt) (d : Node), registered d st = true →
      registered d (pass1 st decls) = true := by
  induction decls with
  | nil => intro st d h; exact h
  | cons e rest ih =>
    intro st d h
    exact ih (pass1Step st e) d (pass1Step_preserves_registered d e st h)

theorem pass1_registers (decls : List Node) :
    ∀ (st : ASt) (d : Node), d ∈ decls → isTopLevel d = true →
      registered d (pass1 st decls) = true := by
  induction decls with
  | nil => intro st d h; simp at h
  | cons e rest ih =>
    intro st d hmem htop
    rw [List.mem_cons] at hmem
    have hfold : pass1 st (e :: rest) = pass1 (pass1Step st e) rest := rfl
    rw [hfold]
    cases hmem with
    | inl hde =>
      subst hde
      apply pass1_preserves_registered
      cases d
      case varDecl vt n ini c =>
        by_cases hp : (alookup st.globalScope n).isSome = true
        · have hps : pass1Step st (Node.varDecl vt n ini c) =
              { st with errors := st.errors ++ [redeclGlobalMsg n] } := by
            simp [pass1Step, hp]
          rw [hps, registered_errors]
          simpa only [registered] using hp
        · have hnone : alookup st.globalScope n = none := by
            cases h : alookup st.globalScope n with
            | none => rfl
            | some v => rw [h] at hp; simp at hp
          have hps : pass1Step st (Node.varDecl vt n ini c) =
              { st with globalScope := st.globalScope ++ [(n, (vt, c))] } := by
            simp [pass1Step, hp]
          rw [hps]
          simp only [registered]
          rw [alookup_append, hnone]
          simp
      case funcDecl rt n ps b =>
        by_cases hp : (alookup st.functions n).isSome = true
        · have hps : pass1Step st (Node.funcDecl rt n ps b) =
              { st with errors := st.errors ++ [redeclFunctionMsg n] } := by
            simp [pass1Step, hp]
          rw [hps, registered_errors]
          simpa only [registered] using hp
        · have hnone : alookup st.functions n = none := by
            cases h : alookup st.functions n with
            | none => rfl
            | some v => rw [h] at hp; simp at hp
          have hps : pass1Step st (Node.funcDecl rt n ps b) =
              { st with functions := st.functions ++ [(n, FuncSig.mk rt n ps b)] } := by
            simp [pass1Step, hp]
          rw [hps]
          simp only [registered]
          rw [alookup_append, hnone]
          simp
      all_goals simp [isTopLevel] at htop
    | inr hrest => exact ih (pass1Step st e) d hrest htop

theorem pass1_all_registered (decls : List Node) :
    ∀ (st : ASt),
      (∀ d ∈ decls, isTopLevel d = true ∧ registered d st = true) →
      pass1 st decls = { st with errors := st.errors ++ decls.map redeclMsgOf } := by
  induction decls with
  | nil => intro st _; simp [pass1]
  | cons d rest ih =>
    intro st h
    obtain ⟨htop, hreg⟩ := h d (List.mem_cons_self _ _)
    have hstep : pass1Step st d = { st with errors := st.errors ++ [redeclMsgOf d] } := by
      cases d
      case varDecl vt n ini c =>
        simp only [registered] at hreg
        simp [pass1Step, hreg, redeclMsgOf]
      case funcDecl rt n ps b =>
        simp only [registered] at hreg
        simp [pass1Step, hreg, redeclMsgOf]
      all_goals simp [isTopLevel] at htop
    have hrest : ∀ d' ∈ rest, isTopLevel d' = true ∧
        registered d' { st with errors := st.errors ++ [redeclMsgOf d] } = true := by
      intro d' hd'
      obtain ⟨ht, hr⟩ := h d' (List.mem_cons_of_mem _ hd')
      exact ⟨ht, by rw [registered_errors]; exact hr⟩
    have : pass1 st (d :: rest) = pass1 (pass1Step st d) rest := rfl
    rw [this, hstep, ih _ hrest]
    simp [List.append_assoc]

/-! ## The claims -/

/-- Claim C1, evaluated at the failing input: `Parser.expect` only raises
when the token's type differs (its condition joins the two tests with
`and`), so a `SYMBOL` token with the wrong value is accepted silently.
On `int x = 1 }` the parser consumes `}` where `expect('SYMBOL', ';')`
demands `;`, and a full Program tree is produced instead of the
structural parse error the claim requires. -/
theorem claim_C1_expect_accepts_wrong_symbol :
    expect ⟨[⟨"SYMBOL", "\x7d", 1, 11⟩], 0⟩ "SYMBOL" (some ";") =
      .ok (⟨"SYMBOL", "\x7d", 1, 11⟩, ⟨[⟨"SYMBOL", "\x7d", 1, 11⟩], 1⟩) ∧
    parseProgram "int x = 1 \x7d" =
      .ok ⟨[.varDecl "int" "x" (some (.literal (.intV 1) "int")) false]⟩ :=
  ⟨rfl, rfl⟩

set_option maxHeartbeats 1600000 in
/-- The parse of the spec's arity example (used to keep the analysis of
the two-function program from re-running the parser term). -/
theorem parse_add_bare :
    parseProgram
        "int add(int a, int b) \x7b return a + b; \x7d void g() \x7b add(1); \x7d" =
      .ok ⟨[.funcDecl "int" "add" [("int", "a"), ("int", "b")]
              (.compound [.returnStmt (some (.binaryOp "+" (.varRef "a") (.varRef "b")))]),
            .funcDecl "void" "g" []
              (.compound [.exprStmt (.funcCall "add" [.literal (.intV 1) "int"])])]⟩ := rfl

set_option maxHeartbeats 1600000 in
/-- The parse of the variant whose call sits in an initializer. -/
theorem parse_add_init :
    parseProgram
        "int add(int a, int b) \x7b return a + b; \x7d void g() \x7b int z = add(1); \x7d" =
      .ok ⟨[.funcDecl "int" "add" [("int", "a"), ("int", "b")]
              (.compound [.returnStmt (some (.binaryOp "+" (.varRef "a") (.varRef "b")))]),
            .funcDecl "void" "g" []
              (.compound [.varDecl "int" "z"
                (some (.funcCall "add" [.literal (.intV 1) "int"])) false])]⟩ := rfl

/-- Claim C2 is false on the code: for the spec's own example the call
`add(1)` appears as a bare expression statement, `visit` handles
`FuncCall` without consulting `infer_type`, and no arity check runs —
analysis returns an empty diagnostics list. -/
theorem claim_C2_counterexample :
    analyzeSource
        "int add(int a, int b) \x7b return a + b; \x7d void g() \x7b add(1); \x7d" =
      .ok [] := by
  simp only [analyzeSource, parse_add_bare, Except.map]
  rfl

/-- Claim C2 as amended: a wrong-argument-count diagnostic is produced
only where `infer_type` reaches the call (for instance an initializer);
a call standing alone as an expression statement is not arity-checked. -/
theorem claim_C2_amended_arity :
    analyzeSource
        "int add(int a, int b) \x7b return a + b; \x7d void g() \x7b add(1); \x7d" =
      .ok [] ∧
    analyzeSource
        "int add(int a, int b) \x7b return a + b; \x7d void g() \x7b int z = add(1); \x7d" =
      .ok [wrongArgsMsg "add" "g"] := by
  constructor
  · simp only [analyzeSource, parse_add_bare, Except.map]
    rfl
  · simp only [analyzeSource, parse_add_init, Except.map]
    rfl

/-- Claim C3 is false on the code: for `void f() { int x = y + 1; }` the
undeclared identifier `y` is reported twice (once by `infer_type` on the
initializer, once again by the statement walk over the same expression),
and the inferred type of `y + 1` is `int`, not absent. -/
theorem claim_C3_counterexample :
    analyzeSource "void f() \x7b int x = y + 1; \x7d" =
      .ok [undeclaredMsg "y" "f", undeclaredMsg "y" "f"] ∧
    (inferType []
        [("f", ⟨"void", "f", [],
          .compound [.varDecl "int" "x"
            (some (.binaryOp "+" (.varRef "y") (.literal (.intV 1) "int"))) false]⟩)]
        "f" [("x", ("int", false))]
        (.binaryOp "+" (.varRef "y") (.literal (.intV 1) "int"))).2 = some "int" :=
  ⟨rfl, rfl⟩

/-- Claim C3 as amended: when an operand cannot be resolved `infer_type`
itself reports the undeclared identifier and returns an absent type for
that operand; an arithmetic node over an absent operand still infers
`int`; and because both the inference pass and the statement walk resolve
the initializer, the example yields exactly two undeclared-identifier
diagnostics for `y`. -/
theorem claim_C3_amended_inference :
    analyzeSource "void f() \x7b int x = y + 1; \x7d" =
      .ok [undeclaredMsg "y" "f", undeclaredMsg "y" "f"] ∧
    inferType []
        [("f", ⟨"void", "f", [],
          .compound [.varDecl "int" "x"
            (some (.binaryOp "+" (.varRef "y") (.literal (.intV 1) "int"))) false]⟩)]
        "f" [("x", ("int", false))] (.varRef "y") =
      ([undeclaredMsg "y" "f"], none) ∧
    inferType []
        [("f", ⟨"void", "f", [],
          .compound [.varDecl "int" "x"
            (some (.binaryOp "+" (.varRef "y") (.literal (.intV 1) "int"))) false]⟩)]
        "f" [("x", ("int", false))]
        (.binaryOp "+" (.varRef "y") (.literal (.intV 1) "int")) =
      ([undeclaredMsg "y" "f"], some "int") :=
  ⟨rfl, rfl, rfl⟩

/-- Claim C4: for `const int x = 5; void f() { x = 6; }` semantic analysis
produces exactly one diagnostic, reporting the assignment to the const
identifier `x`. -/
theorem claim_C4_const_assignment :
    analyzeSource "const int x = 5; void f() \x7b x = 6; \x7d" =
      .ok [constGlobalMsg "x" "f"] := rfl

/-- Claim C5: return-type checking admits exactly the int-to-float
widening — `float f() { return 1; }` is clean, `int g() { return 1.5; }`
gets a return-type-mismatch diagnostic. -/
theorem claim_C5_return_widening :
    analyzeSource "float f() \x7b return 1; \x7d" = .ok [] ∧
    analyzeSource "int g() \x7b return 1.5; \x7d" =
      .ok [retMismatchMsg "g" "int" "float"] :=
  ⟨rfl, rfl⟩

/-- Claim C6: `*` binds tighter than `+` (`1 + 2 * 3` parses to the same
tree as `1 + (2 * 3)`), and assignment is right-associative (`a = b = 1`
parses to the same tree as `a = (b = 1)`). -/
theorem claim_C6_precedence_associativity :
    parseExprSource "1 + 2 * 3" =
      .ok (.binaryOp "+" (.literal (.intV 1) "int")
            (.binaryOp "*" (.literal (.intV 2) "int") (.literal (.intV 3) "int"))) ∧
    parseExprSource "1 + (2 * 3)" =
      .ok (.binaryOp "+" (.literal (.intV 1) "int")
            (.binaryOp "*" (.literal (.intV 2) "int") (.literal (.intV 3) "int"))) ∧
    parseExprSource "a = b = 1" =
      .ok (.binaryOp "=" (.varRef "a")
            (.binaryOp "=" (.varRef "b") (.literal (.intV 1) "int"))) ∧
    parseExprSource "a = (b = 1)" =
      .ok (.binaryOp "=" (.varRef "a")
            (.binaryOp "=" (.varRef "b") (.literal (.intV 1) "int"))) :=
  ⟨rfl, rfl, rfl, rfl⟩

/-- Claim C7: when exactly two top-level variable declarations (or two
function declarations) share a name, pass 1 emits exactly one
redeclaration diagnostic for that name, and the name stays resolved to
the first declaration's information (first-wins). -/
theorem claim_C7_global_redeclaration :
    ∀ (decls : List Node) (n : String),
      (countVarNamed n decls = 2 →
        countMsg (redeclGlobalMsg n) (pass1 initASt decls).errors = 1 ∧
        alookup (pass1 initASt decls).globalScope n = firstVarInfo n decls) ∧
      (countFunNamed n decls = 2 →
        countMsg (redeclFunctionMsg n) (pass1 initASt decls).errors = 1 ∧
        alookup (pass1 initASt decls).functions n = firstFunSig n decls) := by
  intro decls n
  constructor
  · intro h2
    constructor
    · rw [pass1_countVar]
      simp [initASt, countMsg, alookup, h2]
    · rw [pass1_lookupVar]
      simp [initASt, alookup]
  · intro h2
    constructor
    · rw [pass1_countFun]
      simp [initASt, countMsg, alookup, h2]
    · rw [pass1_lookupFun]
      simp [initASt, alookup]

/-- Witness for C7 at a concrete two-declaration program. -/
theorem claim_C7_global_redeclaration_witness :
    countMsg (redeclGlobalMsg "x")
        (pass1 initASt
          [Node.varDecl "int" "x" none false, Node.varDecl "float" "x" none true]).errors = 1 ∧
    alookup (pass1 initASt
        [Node.varDecl "int" "x" none false, Node.varDecl "float" "x" none true]).globalScope "x" =
      firstVarInfo "x"
        [Node.varDecl "int" "x" none false, Node.varDecl "float" "x" none true] :=
  (claim_C7_global_redeclaration
    [Node.varDecl "int" "x" none false, Node.varDecl "float" "x" none true] "x").1 rfl

/-- Claim C8: scanning is total — for every input the token list is
finite and ends in the unique `EOF` token; a position where no lexical
rule matches is skipped silently, producing no token and no error
(illustrated on `a@b`, whose `@` disappears). -/
theorem claim_C8_scanner_total :
    (∀ code : String, ∃ pre lineNum,
        tokenize code = pre ++ [⟨"EOF", "", lineNum, 1⟩] ∧
        ∀ t ∈ pre, t.type ≠ "EOF") ∧
    (∀ (c : Char) (cs : List Char) (pos lineNum lineStart fuel : Nat),
        tryRules (c :: cs) = none →
        scan (fuel + 1) (c :: cs) pos lineNum lineStart =
          scan fuel cs (pos + 1) lineNum lineStart) ∧
    tokenize "a@b" = [⟨"ID", "a", 1, 1⟩, ⟨"ID", "b", 1, 3⟩, ⟨"EOF", "", 1, 1⟩] := by
  refine ⟨?_, ?_, rfl⟩
  · intro code
    refine ⟨(scan (code.data.length + 1) code.data 0 1 0).1,
            (scan (code.data.length + 1) code.data 0 1 0).2, rfl, ?_⟩
    intro t ht
    exact scan_no_eof _ _ _ _ _ _ ht
  · intro c cs pos lineNum lineStart fuel htr
    simp [scan, htr]

/-- Witness for C8's skip clause at the unmatched character `@`. -/
theorem claim_C8_scanner_total_witness :
    scan 1 ['@'] 5 2 1 = scan 0 [] 6 2 1 :=
  claim_C8_scanner_total.2.1 '@' [] 5 2 1 0 rfl

/-- Claim C9 is false on the code: calling `analyze` a second time on the
same analyzer re-collects the globals into the already-populated tables,
so for `int x;` the diagnostics after the second call are
`[Redeclaration of global x]`, not the empty list of the first call. -/
theorem claim_C9_counterexample :
    parseProgram "int x;" = .ok ⟨[.varDecl "int" "x" none false]⟩ ∧
    (analyze ⟨[.varDecl "int" "x" none false]⟩ initASt).errors = [] ∧
    (analyze ⟨[.varDecl "int" "x" none false]⟩
        (analyze ⟨[.varDecl "int" "x" none false]⟩ initASt)).errors =
      [redeclGlobalMsg "x"] ∧
    ([redeclGlobalMsg "x"] : List String) ≠ [] :=
  ⟨rfl, rfl, rfl, by simp⟩

/-- Claim C9 as amended: a second `analyze` on the same instance appends
one redeclaration diagnostic per top-level declaration and then repeats
the per-function diagnostics, so for any program with at least one
top-level declaration the two lists differ (a fresh analyzer, by
determinism of the embedding, would reproduce the first list). -/
theorem claim_C9_amended_second_run :
    ∀ (prog : Program),
      (∀ d ∈ prog.declarations, isTopLevel d = true) →
      (analyze prog (analyze prog initASt)).errors =
          (analyze prog initASt).errors
            ++ prog.declarations.map redeclMsgOf
            ++ pass2Errors (analyze prog initASt).globalScope
                 (analyze prog initASt).functions
        ∧ (prog.declarations ≠ [] →
            (analyze prog (analyze prog initASt)).errors ≠
              (analyze prog initASt).errors) := by
  intro prog htop
  have hreg : ∀ d ∈ prog.declarations, isTopLevel d = true ∧
      registered d (analyze prog initASt) = true := by
    intro d hd
    refine ⟨htop d hd, ?_⟩
    have hrw : analyze prog initASt =
        { pass1 initASt prog.declarations with
          errors := (pass1 initASt prog.declarations).errors
            ++ pass2Errors (pass1 initASt prog.declarations).globalScope
                 (pass1 initASt prog.declarations).functions } := rfl
    rw [hrw, registered_errors]
    exact pass1_registers _ initASt d hd (htop d hd)
  have hP2 : pass1 (analyze prog initASt) prog.declarations =
      { analyze prog initASt with
        errors := (analyze prog initASt).errors
          ++ prog.declarations.map redeclMsgOf } :=
    pass1_all_registered _ _ hreg
  have hmain : (analyze prog (analyze prog initASt)).errors =
      (analyze prog initASt).errors
        ++ prog.declarations.map redeclMsgOf
        ++ pass2Errors (analyze prog initASt).globalScope
             (analyze prog initASt).functions := by
    have hunf : analyze prog (analyze prog initASt) =
        { pass1 (analyze prog initASt) prog.declarations with
          errors := (pass1 (analyze prog initASt) prog.declarations).errors
            ++ pass2Errors
                 (pass1 (analyze prog initASt) prog.declarations).globalScope
                 (pass1 (analyze prog initASt) prog.declarations).functions } := rfl
    rw [hunf, hP2]
  refine ⟨hmain, fun hne heq => ?_⟩
  rw [hmain] at heq
  have hl := congrArg List.length heq
  simp only [List.length_append, List.length_map] at hl
  exact hne (List.length_eq_zero.mp (by omega))

/-- Witness for C9's amended statement at the one-declaration program
`int x;`. -/
theorem claim_C9_amended_second_run_witness :
    (analyze ⟨[Node.varDecl "int" "x" none false]⟩
        (analyze ⟨[Node.varDecl "int" "x" none false]⟩ initASt)).errors =
      (analyze ⟨[Node.varDecl "int" "x" none false]⟩ initASt).errors
        ++ [Node.varDecl "int" "x" none false].map redeclMsgOf
        ++ pass2Errors
             (analyze ⟨[Node.varDecl "int" "x" none false]⟩ initASt).globalScope
             (analyze ⟨[Node.varDecl "int" "x" none false]⟩ initASt).functions ∧
    (analyze ⟨[Node.varDecl "int" "x" none false]⟩
        (analyze ⟨[Node.varDecl "int" "x" none false]⟩ initASt)).errors ≠
      (analyze ⟨[Node.varDecl "int" "x" none false]⟩ initASt).errors :=
  have h := claim_C9_amended_second_run ⟨[Node.varDecl "int" "x" none false]⟩
    (by intro d hd; simp at hd; subst hd; rfl)
  ⟨h.1, h.2 (by simp)⟩

set_option maxHeartbeats 1600000 in
/-- The parse of the local-redeclaration example. -/
theorem parse_local_redecl :
    parseProgram "void f() \x7b int x = 1; float x = 2.5; int y = x; \x7d" =
      .ok ⟨[.funcDecl "void" "f" []
              (.compound
                [.varDecl "int" "x" (some (.literal (.intV 1) "int")) false,
                 .varDecl "float" "x" (some (.literal (.floatV "2.5") "float")) false,
                 .varDecl "int" "y" (some (.varRef "x")) false])]⟩ := rfl

/-- Claim C10: a local redeclaration is flagged, but the scope entry is
replaced, so the name thereafter resolves to the later declaration's type
and const flag (unlike the first-wins global rule); concretely, after
`int x = 1; float x = 2.5;` the reference in `int y = x;` infers `float`
and is flagged as a narrowing initializer. -/
theorem claim_C10_local_redeclaration_last_wins :
    (∀ (gs : List (String × VarInfo)) (fns : List (String × FuncSig))
        (fname fret : String) (scope : List (String × VarInfo))
        (vt n : String) (isC : Bool),
      visit gs fns fname fret scope (.varDecl vt n none isC) =
        ((if (alookup scope n).isSome then [redeclLocalMsg n fname] else []),
          aset scope n (vt, isC)) ∧
      alookup (aset scope n (vt, isC)) n = some (vt, isC) ∧
      inferType gs fns fname (aset scope n (vt, isC)) (.varRef n) =
        ([], some vt)) ∧
    analyzeSource "void f() \x7b int x = 1; float x = 2.5; int y = x; \x7d" =
      .ok [redeclLocalMsg "x" "f", initMismatchMsg "y" "float" "int" "f"] := by
  constructor
  · intro gs fns fname fret scope vt n isC
    refine ⟨rfl, alookup_aset_self _ _ _, ?_⟩
    simp [inferType, alookup_aset_self]
  · simp only [analyzeSource, parse_local_redecl, Except.map]
    rfl

end CCFront
